import Mathlib

/-!
Verification of the Telethon photo batch collector (src/main.py).

Python strings are modelled as lists of characters (`PyStr`); Python string
operations (strip, lower, regex split, regex substitution) are given faithful
character-level definitions restricted to the ASCII whitespace characters that
the source inputs use. The event handler is modelled as a pure step function
over an explicit `BatchState`, with the external effects of the source
(media download, folder creation, file moves) driven by oracles carried in an
`Env` record; an uncaught Python exception is the `HResult.raised` outcome.
-/

/-- Python strings, modelled as lists of characters. -/
abbrev PyStr := List Char

/-- Convert a Lean string literal to the `PyStr` model. -/
def str (s : String) : PyStr := s.toList

/-- ASCII whitespace, the characters matched by Python `\s` and stripped by
`str.strip()` on ASCII input. -/
def isWs (c : Char) : Bool :=
  c == ' ' || c == '\t' || c == '\n' || c == '\r' || c == '\x0b' || c == '\x0c'

/-- The characters of the class built from `INVALID_FS_CHARS` in the source.
The constant is a RAW Python string, so its `\n`, `\r`, `\t` are each a
backslash followed by a letter: after `re.escape` the character class matches
the punctuation, the backslash, and the literal letters n, r and t - not the
newline, carriage-return and tab control characters. -/
def isInvalid (c : Char) : Bool :=
  c == '<' || c == '>' || c == ':' || c == '\"' || c == '/' || c == '\\' ||
  c == '|' || c == '?' || c == '*' || c == 'n' || c == 'r' || c == 't'

/-- The characters stripped from both ends by `name.strip(" ._")`. -/
def isStrip3 (c : Char) : Bool := c == ' ' || c == '.' || c == '_'

/-- Drop the longest suffix of characters satisfying `p`. -/
def dropTrailing (p : Char → Bool) (s : PyStr) : PyStr :=
  (s.reverse.dropWhile p).reverse

/-- Python `str.strip()`: remove leading and trailing whitespace. -/
def pyStrip (s : PyStr) : PyStr := dropTrailing isWs (s.dropWhile isWs)

/-- Python `str.strip(" ._")`: remove leading and trailing spaces, dots and
underscores. -/
def stripEnds (s : PyStr) : PyStr := dropTrailing isStrip3 (s.dropWhile isStrip3)

/-- Replace every maximal run of characters satisfying `p` by the single
character `rep`; `inRun` records whether the previous character was in a run.
This is the effect of `re.sub(pat+, rep, s)` for a character-class pattern. -/
def collapseAux (p : Char → Bool) (rep : Char) (inRun : Bool) : PyStr → PyStr
  | [] => []
  | c :: cs =>
    if p c then
      if inRun then collapseAux p rep true cs
      else rep :: collapseAux p rep true cs
    else c :: collapseAux p rep false cs

/-- Model of line `name = re.sub(r"\s+", " ", name)`. -/
def collapseWs (s : PyStr) : PyStr := collapseAux isWs ' ' false s

/-- Model of line `name = re.sub(r"_+", "_", name)`. -/
def collapseUnd (s : PyStr) : PyStr := collapseAux (fun c => c == '_') '_' false s

/-- Model of `sanitize_name` (src/main.py lines 60-71): strip, fall back to
the literal "Unknown" on empty (returned as is, without replacement), replace
every character of the `isInvalid` class (which, through the raw-string
constant, includes the letters n, r, t) by underscore, collapse whitespace
runs to a space and underscore runs to an underscore, strip spaces, dots and
underscores from both ends, truncate to `maxLen`. Tab, newline and carriage
return are not in the class; they fall to the whitespace collapse. -/
def sanitize_name (name : PyStr) (maxLen : Nat := 80) : PyStr :=
  let n := pyStrip name
  if n.isEmpty then str "Unknown"
  else
    let s1 := n.map (fun c => if isInvalid c then '_' else c)
    let s2 := collapseWs s1
    let s3 := collapseUnd s2
    let s4 := stripEnds s3
    s4.take maxLen

/-- Is the character one of the label separators in the class `[|-]`. -/
def isSep (c : Char) : Bool := c == '|' || c == '-'

/-- Leftmost match of the regex `\s*[|-]\s*` with `maxsplit=1`, as used by
`re.split` in `parse_city_site`: scanning left to right, on the first
separator character the part before it loses its trailing whitespace (the
greedy `\s*` to the left of the class) and the part after it loses its
leading whitespace (the greedy `\s*` to the right); `acc` is the reversed
prefix scanned so far. `none` means the pattern does not occur. -/
def splitSepAux (acc : PyStr) : PyStr → Option (PyStr × PyStr)
  | [] => none
  | c :: cs =>
    if isSep c then some (dropTrailing isWs acc.reverse, cs.dropWhile isWs)
    else splitSepAux (c :: acc) cs

/-- Model of `parse_city_site` (src/main.py lines 74-87): strip the text,
split on the first `\s*[|-]\s*` match; if both parts are non-blank use them
as city and site, otherwise fall back to UnknownCity with the whole stripped
text (or UnknownSite when it is empty); sanitize both results. -/
def parse_city_site (text : PyStr) : PyStr × PyStr :=
  let info := pyStrip text
  let cs : PyStr × PyStr :=
    match splitSepAux [] info with
    | some (p0, p1) =>
      if !(pyStrip p0).isEmpty && !(pyStrip p1).isEmpty then
        (pyStrip p0, pyStrip p1)
      else
        (str "UnknownCity", if !info.isEmpty then info else str "UnknownSite")
    | none =>
      (str "UnknownCity", if !info.isEmpty then info else str "UnknownSite")
  (sanitize_name cs.1, sanitize_name cs.2)

/-- The configured trigger phrase `TRIGGER_TEXT` of the source. -/
def TRIGGER_TEXT : PyStr := str "sending photos"

/-- Model of `is_trigger` (src/main.py lines 90-91):
`text.strip().lower() == TRIGGER_TEXT`. -/
def is_trigger (text : PyStr) : Bool :=
  (pyStrip text).map Char.toLower == TRIGGER_TEXT

/-- The configuration flag `ALLOW_IMAGE_DOCUMENTS` of the source. -/
def ALLOW_IMAGE_DOCUMENTS : Bool := true

/-- Does the character list `s` start with the character list `p`. -/
def listStartsWith : PyStr → PyStr → Bool
  | [], _ => true
  | _, [] => false
  | p :: ps, c :: cs => p == c && listStartsWith ps cs

/-- The fields of a Telegram message that `is_photo_message` inspects:
whether it carries a native photo, and the declared MIME type of its document
payload when it has one (`msg.document` absent is `none`; a document whose
`mime_type` attribute is missing or `None` is modelled by the empty string,
matching `getattr(msg.document, "mime_type", "") or ""`). -/
structure Msg where
  photo : Bool
  document : Option PyStr
  deriving DecidableEq

/-- Model of `is_photo_message` (src/main.py lines 94-106). -/
def is_photo_message (msg : Msg) : Bool :=
  if msg.photo then true
  else
    match msg.document with
    | some mime => ALLOW_IMAGE_DOCUMENTS && listStartsWith (str "image/") mime
    | none => false

/-- POSIX `os.path.join` of a directory and a relative name. -/
def joinPath (a b : PyStr) : PyStr := a ++ '/' :: b

/-- The output root `OUTPUT_ROOT = "output"` of the source. -/
def OUTPUT_ROOT : PyStr := str "output"

/-- The temporary inbox `DOWNLOAD_TEMP = os.path.join(OUTPUT_ROOT, "_inbox")`. -/
def DOWNLOAD_TEMP : PyStr := joinPath OUTPUT_ROOT (str "_inbox")

/-- POSIX `os.path.basename`: the part after the last slash. -/
def basename (p : PyStr) : PyStr := (p.reverse.takeWhile (fun c => c != '/')).reverse

/-- Model of `os.path.splitext` on a basename: split at the last dot, unless
every character before that dot is itself a dot (leading dots of a hidden
file are not an extension). -/
def splitext (b : PyStr) : PyStr × PyStr :=
  let extRev := b.reverse.takeWhile (fun c => c != '.')
  if extRev.length == b.length then (b, [])
  else
    let rootLen := b.length - extRev.length - 1
    if (b.take rootLen).all (fun c => c == '.') then (b, [])
    else (b.take rootLen, b.drop rootLen)

/-- Decimal digits of a natural number, as Python `str(n)` produces. -/
def natToChars (n : Nat) : PyStr := (toString n).toList

/-- Model of `batch_folder` (src/main.py lines 114-118). -/
def batch_folder (city site stamp : PyStr) : PyStr :=
  let folder := sanitize_name (city ++ str " - " ++ site)
  joinPath OUTPUT_ROOT (folder ++ str " (" ++ stamp ++ str ")")

/-- The mutable module-level state of the source: `collecting`,
`batch_started_at`, `downloaded_files`. -/
structure BatchState where
  collecting : Bool
  batch_started_at : Option PyStr
  downloaded_files : List PyStr
  deriving DecidableEq

/-- Outcome of `msg.download_media(file=DOWNLOAD_TEMP)`: a path, a falsy
return value, or a raised exception (caught by the handler). -/
inductive DownloadOutcome where
  | ok (path : PyStr)
  | noPath
  | err
  deriving DecidableEq

/-- The filesystem view the model tracks: existing file paths and existing
directory paths. -/
structure FS where
  files : List PyStr
  dirs : List PyStr
  deriving DecidableEq

/-- Effect of `os.makedirs(d, exist_ok=True)` on the directory list. -/
def addDir (d : PyStr) (ds : List PyStr) : List PyStr :=
  if ds.contains d then ds else d :: ds

/-- Effect of `ensure_dirs()` (src/main.py lines 109-111). -/
def ensureDirs (fs : FS) : FS :=
  { fs with dirs := addDir DOWNLOAD_TEMP (addDir OUTPUT_ROOT fs.dirs) }

/-- Oracles for the external effects one handler invocation performs: the
current timestamp string, the result of the media download, whether creating
the destination folder succeeds, and whether each `os.replace` succeeds. -/
structure Env where
  now : PyStr
  download : DownloadOutcome
  mkdirOk : Bool
  replaceOk : PyStr → PyStr → Bool

/-- One relocation attempt of the finalize loop, as recorded by the model:
the staged source path, the direct destination `dst0`, whether `dst0` already
existed, the destination actually used, whether the move succeeded, and the
value of the `moved` counter when the attempt started. -/
structure MoveAttempt where
  src : PyStr
  dst0 : PyStr
  existed : Bool
  dst : PyStr
  ok : Bool
  movedBefore : Nat
  deriving DecidableEq

/-- Result of the finalize move loop: the final `moved` counter, the file
list after the moves, and the trace of attempts in order. -/
structure MoveOut where
  moved : Nat
  files : List PyStr
  trace : List MoveAttempt
  deriving DecidableEq

/-- Model of the move loop of the handler (src/main.py lines 169-181): for
each staged path compute the destination from its basename, rename it with
the current `moved` counter if that destination already exists, attempt the
move (`os.replace`), and count only successful moves. -/
def moveLoop (repOk : PyStr → PyStr → Bool) (dest : PyStr) (moved : Nat)
    (files : List PyStr) : List PyStr → MoveOut
  | [] => ⟨moved, files, []⟩
  | src :: rest =>
    let base := basename src
    let dst0 := joinPath dest base
    let existed := files.contains dst0
    let dst :=
      if existed then
        let re := splitext base
        joinPath dest (re.1 ++ '_' :: natToChars moved ++ re.2)
      else dst0
    if repOk src dst then
      let out := moveLoop repOk dest (moved + 1) (dst :: files.erase src) rest
      ⟨out.moved, out.files, ⟨src, dst0, existed, dst, true, moved⟩ :: out.trace⟩
    else
      let out := moveLoop repOk dest moved files rest
      ⟨out.moved, out.files, ⟨src, dst0, existed, dst, false, moved⟩ :: out.trace⟩

/-- The values the finalize branch prints: city, site, number of moved files,
destination folder; `attempts` additionally records the move trace. -/
structure Report where
  city : PyStr
  site : PyStr
  moved : Nat
  dest : PyStr
  attempts : List MoveAttempt
  deriving DecidableEq

/-- The inbound event as the handler sees it: `event.raw_text` (empty for
None) and the message payload fields. -/
structure Event where
  rawText : PyStr
  msg : Msg
  deriving DecidableEq

/-- Outcome of one handler invocation: normal return with the new state, the
new filesystem and an optional finalize report, or an uncaught exception
(`raised`) with the state and filesystem as mutated up to that point. -/
inductive HResult where
  | ok (st : BatchState) (fs : FS) (rep : Option Report)
  | raised (st : BatchState) (fs : FS)
  deriving DecidableEq

/-- Model of `handler` (src/main.py lines 128-192). Branch order follows the
early returns of the source: trigger, media collection while collecting,
finalize on non-trigger text while collecting, otherwise ignore. The only
statement outside a `try` that the oracles allow to fail is
`os.makedirs(dest_folder, exist_ok=True)`; when it fails the exception
escapes the handler before the state reset lines run. -/
def handler (env : Env) (st : BatchState) (fs0 : FS) (ev : Event) : HResult :=
  let fs := ensureDirs fs0
  let text := pyStrip ev.rawText
  if !text.isEmpty && is_trigger text then
    .ok ⟨true, some env.now, []⟩ fs none
  else if st.collecting && is_photo_message ev.msg then
    match env.download with
    | .ok p =>
      .ok { st with downloaded_files := st.downloaded_files ++ [p] }
        { fs with files := p :: fs.files } none
    | .noPath => .ok st fs none
    | .err => .ok st fs none
  else if st.collecting && !text.isEmpty then
    let cs := parse_city_site text
    let stamp := st.batch_started_at.getD env.now
    let dest := batch_folder cs.1 cs.2 stamp
    if env.mkdirOk then
      let fs1 : FS := { fs with dirs := addDir dest fs.dirs }
      let out := moveLoop env.replaceOk dest 0 fs1.files st.downloaded_files
      .ok ⟨false, none, []⟩ { fs1 with files := out.files }
        (some ⟨cs.1, cs.2, out.moved, dest, out.trace⟩)
    else .raised st fs
  else .ok st fs none

/-- One event together with the effect oracles in force while it is
handled. -/
structure Step where
  ev : Event
  env : Env

/-- State, filesystem and report after one handler invocation; an uncaught
exception leaves state and filesystem as the handler left them (the
surrounding event loop logs it and keeps running). -/
def stepState (st : BatchState) (fs : FS) (s : Step) :
    BatchState × FS × Option Report :=
  match handler s.env st fs s.ev with
  | .ok st1 fs1 r => (st1, fs1, r)
  | .raised st1 fs1 => (st1, fs1, none)

/-- Run the handler over a sequence of events, collecting the finalize
reports in order. -/
def runEvents (st : BatchState) (fs : FS) : List Step → BatchState × FS × List Report
  | [] => (st, fs, [])
  | s :: rest =>
    let r1 := stepState st fs s
    let rr := runEvents r1.1 r1.2.1 rest
    (rr.1, rr.2.1, r1.2.2.toList ++ rr.2.2)

/-- The paths returned by the successful downloads of a step sequence. -/
def downloadOks (steps : List Step) : List PyStr :=
  steps.filterMap (fun s =>
    match s.env.download with
    | .ok p => some p
    | _ => none)

/-- The case-folded, whitespace-normalized form of a text: trim, collapse
internal whitespace runs to single spaces, lowercase. -/
def caseWsNormalized (t : PyStr) : PyStr :=
  (collapseWs (pyStrip t)).map Char.toLower

/-- No two adjacent characters both satisfy `p`. -/
def chain2 (p : Char → Bool) : PyStr → Bool
  | a :: b :: t => (!(p a && p b)) && chain2 p (b :: t)
  | _ => true

/-- The first character, if any, satisfies `p`. -/
def headOk (p : Char → Bool) : PyStr → Bool
  | [] => true
  | c :: _ => p c

/-- The last character, if any, satisfies `p`. -/
def lastOk (p : Char → Bool) (s : PyStr) : Bool := headOk p s.reverse

/-- Is the character an underscore. -/
def isUnd (c : Char) : Bool := c == '_'

/-- Every whitespace character of the string is a plain space. -/
def wsIsSpace (s : PyStr) : Prop := ∀ c ∈ s, isWs c = true → c = ' '

/-- No character of the string is a forbidden filesystem character. -/
def noInvalid (s : PyStr) : Prop := ∀ c ∈ s, isInvalid c = false

/-- The shape invariant of sanitized names: non-empty, no forbidden
characters, all whitespace is isolated single spaces, no doubled
underscores, no leading or trailing space, dot or underscore, and at most 80
characters. Strings of this shape are exactly the fixed points of
`sanitize_name`. -/
def goodStr (s : PyStr) : Prop :=
  s ≠ [] ∧ noInvalid s ∧ wsIsSpace s ∧ chain2 isWs s = true ∧
  chain2 isUnd s = true ∧ headOk (fun c => !isStrip3 c) s = true ∧
  lastOk (fun c => !isStrip3 c) s = true ∧ s.length ≤ 80

theorem headOk_dropWhile (p : Char → Bool) (s : PyStr) :
    headOk (fun c => !p c) (s.dropWhile p) = true := by
  induction s with
  | nil => rfl
  | cons c t ih =>
    by_cases h : p c
    · simpa [List.dropWhile_cons_of_pos h] using ih
    · simp [List.dropWhile_cons_of_neg h, headOk, h]

theorem dropWhile_eq_self_of_headOk {p : Char → Bool} {s : PyStr}
    (h : headOk (fun c => !p c) s = true) : s.dropWhile p = s := by
  cases s with
  | nil => rfl
  | cons c t =>
    have hc : p c = false := by simpa [headOk] using h
    simp [List.dropWhile_cons, hc]

theorem dropTrailing_append (p : Char → Bool) (s : PyStr) :
    dropTrailing p s ++ (s.reverse.takeWhile p).reverse = s := by
  conv_rhs => rw [← List.reverse_reverse s,
    ← List.takeWhile_append_dropWhile p s.reverse]
  rw [List.reverse_append, dropTrailing]

theorem lastOk_dropTrailing (p : Char → Bool) (s : PyStr) :
    lastOk (fun c => !p c) (dropTrailing p s) = true := by
  have : (dropTrailing p s).reverse = s.reverse.dropWhile p := by
    simp [dropTrailing]
  rw [lastOk, this]
  exact headOk_dropWhile p s.reverse

theorem dropTrailing_eq_self_of_lastOk {p : Char → Bool} {s : PyStr}
    (h : lastOk (fun c => !p c) s = true) : dropTrailing p s = s := by
  rw [dropTrailing, dropWhile_eq_self_of_headOk h, List.reverse_reverse]

theorem headOk_of_append {q : Char → Bool} {a t : PyStr}
    (h : headOk q (a ++ t) = true) (hne : a ≠ []) : headOk q a = true := by
  cases a with
  | nil => exact absurd rfl hne
  | cons c r => simpa [headOk] using h

theorem head_eq_of_append {a t : PyStr} (hne : a ≠ []) :
    (a ++ t).head? = a.head? := by
  cases a with
  | nil => exact absurd rfl hne
  | cons x r => rfl

theorem dropTrailing_ne_nil {p : Char → Bool} {s : PyStr}
    (hh : headOk (fun c => !p c) s = true) (hne : s ≠ []) :
    dropTrailing p s ≠ [] := by
  intro hcontra
  cases s with
  | nil => exact hne rfl
  | cons c t =>
    have hc : p c = false := by simpa [headOk] using hh
    have hall : ∀ x ∈ (c :: t).reverse, p x := by
      have : (c :: t).reverse.dropWhile p = [] := by
        have := hcontra
        simp only [dropTrailing] at this
        exact List.reverse_eq_nil_iff.mp this
      exact List.dropWhile_eq_nil_iff.mp this
    have := hall c (by simp)
    rw [hc] at this
    exact Bool.false_ne_true this

theorem pyStrip_eq_self {s : PyStr}
    (hh : headOk (fun c => !isWs c) s = true)
    (hl : lastOk (fun c => !isWs c) s = true) : pyStrip s = s := by
  rw [pyStrip, dropWhile_eq_self_of_headOk hh, dropTrailing_eq_self_of_lastOk hl]

theorem headOk_pyStrip (s : PyStr) :
    headOk (fun c => !isWs c) (pyStrip s) = true := by
  rw [pyStrip]
  rcases hcase : dropTrailing isWs (s.dropWhile isWs) with _ | ⟨c, t⟩
  · rfl
  · have hpre := dropTrailing_append isWs (s.dropWhile isWs)
    rw [hcase] at hpre
    have := headOk_dropWhile isWs s
    rw [← hpre] at this
    exact headOk_of_append this (by simp)

theorem lastOk_pyStrip (s : PyStr) :
    lastOk (fun c => !isWs c) (pyStrip s) = true :=
  lastOk_dropTrailing isWs (s.dropWhile isWs)

theorem pyStrip_idem (s : PyStr) : pyStrip (pyStrip s) = pyStrip s :=
  pyStrip_eq_self (headOk_pyStrip s) (lastOk_pyStrip s)

theorem sanitize_pyStrip (s : PyStr) (n : Nat) :
    sanitize_name (pyStrip s) n = sanitize_name s n := by
  simp only [sanitize_name, pyStrip_idem]

theorem chain2_tail {p : Char → Bool} {c : Char} {t : PyStr}
    (h : chain2 p (c :: t) = true) : chain2 p t = true := by
  cases t with
  | nil => rfl
  | cons b r => exact (Bool.and_eq_true_iff.mp h).2

theorem chain2_pair {p : Char → Bool} {c h : Char} {t : PyStr}
    (hc : chain2 p (c :: t) = true) (hh : t.head? = some h) :
    (!(p c && p h)) = true := by
  cases t with
  | nil => simp at hh
  | cons b r =>
    cases hh
    exact (Bool.and_eq_true_iff.mp hc).1

theorem chain2_cons_intro {p : Char → Bool} {c : Char} {o : PyStr}
    (hpair : ∀ h, o.head? = some h → (!(p c && p h)) = true)
    (ho : chain2 p o = true) : chain2 p (c :: o) = true := by
  cases o with
  | nil => rfl
  | cons b r =>
    rw [chain2, Bool.and_eq_true_iff]
    exact ⟨hpair b rfl, ho⟩

theorem chain2_append_left {p : Char → Bool} :
    ∀ {a b : PyStr}, chain2 p (a ++ b) = true → chain2 p a = true
  | [], _, _ => rfl
  | [_], _, _ => rfl
  | x :: y :: r, b, h => by
    rw [List.cons_append, List.cons_append] at h
    rw [chain2, Bool.and_eq_true_iff]
    refine ⟨(Bool.and_eq_true_iff.mp h).1, ?_⟩
    exact chain2_append_left (a := y :: r) (b := b) (Bool.and_eq_true_iff.mp h).2

theorem chain2_append_right {p : Char → Bool} :
    ∀ {a b : PyStr}, chain2 p (a ++ b) = true → chain2 p b = true
  | [], _, h => h
  | x :: r, b, h => by
    rw [List.cons_append] at h
    exact chain2_append_right (a := r) (chain2_tail h)

theorem chain2_take {p : Char → Bool} {s : PyStr} (h : chain2 p s = true)
    (n : Nat) : chain2 p (s.take n) = true := by
  have := List.take_append_drop n s
  rw [← this] at h
  exact chain2_append_left h

theorem chain2_dropWhile {p q : Char → Bool} {s : PyStr}
    (h : chain2 p s = true) : chain2 p (s.dropWhile q) = true := by
  have := List.takeWhile_append_dropWhile q s
  rw [← this] at h
  exact chain2_append_right h

theorem chain2_dropTrailing {p q : Char → Bool} {s : PyStr}
    (h : chain2 p s = true) : chain2 p (dropTrailing q s) = true := by
  have := dropTrailing_append q s
  rw [← this] at h
  exact chain2_append_left h

theorem mem_dropWhile {q : Char → Bool} {s : PyStr} {c : Char}
    (h : c ∈ s.dropWhile q) : c ∈ s := by
  have := List.takeWhile_append_dropWhile q s
  rw [← this]
  exact List.mem_append_right _ h

theorem mem_dropTrailing {q : Char → Bool} {s : PyStr} {c : Char}
    (h : c ∈ dropTrailing q s) : c ∈ s := by
  have := dropTrailing_append q s
  rw [← this]
  exact List.mem_append_left _ h

theorem headOk_take {q : Char → Bool} {s : PyStr} (h : headOk q s = true)
    (n : Nat) : headOk q (s.take n) = true := by
  cases s with
  | nil => simp [headOk]
  | cons c t =>
    cases n with
    | zero => rfl
    | succ m => simpa [headOk, List.take] using h

theorem collapse_head_true {p : Char → Bool} {rep : Char} :
    ∀ {t : PyStr} {h : Char},
      (collapseAux p rep true t).head? = some h → p h = false
  | [], _, hh => by simp [collapseAux] at hh
  | c :: t, h, hh => by
    by_cases hc : p c
    · rw [collapseAux, if_pos hc, if_pos rfl] at hh
      exact collapse_head_true hh
    · rw [collapseAux, if_neg hc] at hh
      cases hh
      exact Bool.of_not_eq_true hc

theorem collapse_head_id {p : Char → Bool} {rep : Char} {t : PyStr} {h : Char}
    (hh : (collapseAux p rep false t).head? = some h) :
    h = rep ∨ t.head? = some h := by
  cases t with
  | nil => simp [collapseAux] at hh
  | cons c r =>
    by_cases hc : p c
    · rw [collapseAux, if_pos hc] at hh
      simp only [if_neg Bool.false_ne_true] at hh
      cases hh
      exact Or.inl rfl
    · rw [collapseAux, if_neg hc] at hh
      cases hh
      exact Or.inr rfl

theorem collapse_chain2 {p : Char → Bool} {rep : Char} :
    ∀ (s : PyStr) (b : Bool), chain2 p (collapseAux p rep b s) = true := by
  intro s
  induction s with
  | nil => intro b; rfl
  | cons c t ih =>
    intro b
    by_cases hc : p c
    · cases b with
      | true => rw [collapseAux, if_pos hc, if_pos rfl]; exact ih true
      | false =>
        rw [collapseAux, if_pos hc, if_neg Bool.false_ne_true]
        refine chain2_cons_intro (fun h hh => ?_) (ih true)
        have := collapse_head_true hh
        simp [this]
    · rw [collapseAux, if_neg hc]
      refine chain2_cons_intro (fun h hh => ?_) (ih false)
      simp [Bool.of_not_eq_true hc]

theorem collapse_mem {p : Char → Bool} {rep : Char} :
    ∀ {b : Bool} {s : PyStr} {c : Char}, c ∈ collapseAux p rep b s →
      c = rep ∨ (c ∈ s ∧ p c = false)
  | _, [], _, h => by simp [collapseAux] at h
  | b, x :: t, c, h => by
    by_cases hx : p x
    · cases b with
      | true =>
        rw [collapseAux, if_pos hx, if_pos rfl] at h
        rcases collapse_mem h with h1 | ⟨h2, h3⟩
        · exact Or.inl h1
        · exact Or.inr ⟨List.mem_cons_of_mem x h2, h3⟩
      | false =>
        rw [collapseAux, if_pos hx, if_neg Bool.false_ne_true] at h
        rcases List.mem_cons.mp h with h1 | h1
        · exact Or.inl h1
        · rcases collapse_mem h1 with h2 | ⟨h3, h4⟩
          · exact Or.inl h2
          · exact Or.inr ⟨List.mem_cons_of_mem x h3, h4⟩
    · rw [collapseAux, if_neg hx] at h
      rcases List.mem_cons.mp h with h1 | h1
      · subst h1; exact Or.inr ⟨List.mem_cons_self c t, Bool.of_not_eq_true hx⟩
      · rcases collapse_mem h1 with h2 | ⟨h3, h4⟩
        · exact Or.inl h2
        · exact Or.inr ⟨List.mem_cons_of_mem x h3, h4⟩

theorem collapse_chain2_preserve {p q : Char → Bool} {rep : Char}
    (hrep : q rep = false) :
    ∀ (s : PyStr) (b : Bool), chain2 q s = true →
      chain2 q (collapseAux p rep b s) = true := by
  intro s
  induction s with
  | nil => intro b _; rfl
  | cons c t ih =>
    intro b hch
    by_cases hc : p c
    · cases b with
      | true =>
        rw [collapseAux, if_pos hc, if_pos rfl]
        exact ih true (chain2_tail hch)
      | false =>
        rw [collapseAux, if_pos hc, if_neg Bool.false_ne_true]
        refine chain2_cons_intro (fun h _ => ?_) (ih true (chain2_tail hch))
        simp [hrep]
    · rw [collapseAux, if_neg hc]
      refine chain2_cons_intro (fun h hh => ?_) (ih false (chain2_tail hch))
      rcases collapse_head_id hh with h1 | h1
      · subst h1; simp [hrep]
      · exact chain2_pair hch h1

theorem collapse_fixed {p : Char → Bool} {rep : Char} :
    ∀ (s : PyStr), chain2 p s = true → (∀ c ∈ s, p c = true → c = rep) →
      ∀ (b : Bool), (b = true → headOk (fun c => !p c) s = true) →
        collapseAux p rep b s = s := by
  intro s
  induction s with
  | nil => intro _ _ b _; rfl
  | cons c t ih =>
    intro hch hall b hb
    by_cases hc : p c
    · cases b with
      | true =>
        have := hb rfl
        rw [headOk, hc] at this
        exact absurd this (by simp)
      | false =>
        rw [collapseAux, if_pos hc, if_neg Bool.false_ne_true]
        have hcrep : c = rep := hall c (List.mem_cons_self c t) hc
        have hhd : headOk (fun x => !p x) t = true := by
          cases t with
          | nil => rfl
          | cons d r =>
            have h2 : p c = false ∨ p d = false := by
              simpa using chain2_pair hch (h := d) rfl
            rw [headOk]
            rcases h2 with h1 | h1
            · rw [hc] at h1; exact absurd h1 (by simp)
            · simp [h1]
        rw [ih (chain2_tail hch) (fun x hx hpx => hall x (List.mem_cons_of_mem c hx) hpx)
          true (fun _ => hhd), hcrep]
    · rw [collapseAux, if_neg hc,
        ih (chain2_tail hch) (fun x hx hpx => hall x (List.mem_cons_of_mem c hx) hpx)
          false (by simp)]

theorem map_id_of_mem {f : Char → Char} :
    ∀ {s : PyStr}, (∀ c ∈ s, f c = c) → s.map f = s
  | [], _ => rfl
  | c :: t, h => by
    rw [List.map_cons, h c (List.mem_cons_self c t),
      map_id_of_mem (fun x hx => h x (List.mem_cons_of_mem c hx))]

theorem headOk_stripEnds (s : PyStr) :
    headOk (fun c => !isStrip3 c) (stripEnds s) = true := by
  rw [stripEnds]
  rcases hcase : dropTrailing isStrip3 (s.dropWhile isStrip3) with _ | ⟨c, t⟩
  · rfl
  · have hpre := dropTrailing_append isStrip3 (s.dropWhile isStrip3)
    rw [hcase] at hpre
    have := headOk_dropWhile isStrip3 s
    rw [← hpre] at this
    exact headOk_of_append this (by simp)

theorem lastOk_stripEnds (s : PyStr) :
    lastOk (fun c => !isStrip3 c) (stripEnds s) = true :=
  lastOk_dropTrailing isStrip3 (s.dropWhile isStrip3)

theorem mem_stripEnds {s : PyStr} {c : Char} (h : c ∈ stripEnds s) : c ∈ s :=
  mem_dropWhile (mem_dropTrailing h)

theorem chain2_stripEnds {p : Char → Bool} {s : PyStr}
    (h : chain2 p s = true) : chain2 p (stripEnds s) = true :=
  chain2_dropTrailing (chain2_dropWhile h)

theorem sanitize_fixed {s : PyStr} (h : goodStr s) : sanitize_name s = s := by
  obtain ⟨hne, hinv, hws, hchw, hchu, hhd, hlt, hlen⟩ := h
  have hhdw : headOk (fun c => !isWs c) s = true := by
    cases s with
    | nil => rfl
    | cons c t =>
      rw [headOk]
      by_cases hw : isWs c
      · have hsp := hws c (List.mem_cons_self c t) hw
        subst hsp
        rw [headOk] at hhd
        exact absurd hhd (by decide)
      · simp [hw]
  have hltw : lastOk (fun c => !isWs c) s = true := by
    rw [lastOk]
    rcases hrev : s.reverse with _ | ⟨c, t⟩
    · rfl
    · rw [headOk]
      have hcmem : c ∈ s := List.mem_reverse.mp (by rw [hrev]; exact List.mem_cons_self c t)
      by_cases hw : isWs c
      · have hsp := hws c hcmem hw
        subst hsp
        rw [lastOk, hrev, headOk] at hlt
        exact absurd hlt (by decide)
      · simp [hw]
  have hstrip : pyStrip s = s := pyStrip_eq_self hhdw hltw
  have hmap : s.map (fun c => if isInvalid c then '_' else c) = s :=
    map_id_of_mem (fun c hc => by rw [if_neg (by simp [hinv c hc])])
  have hcw : collapseWs s = s :=
    collapse_fixed s hchw (fun c hc hp => hws c hc hp) false
      (fun hcontra => absurd hcontra Bool.false_ne_true)
  have hcu : collapseUnd s = s :=
    collapse_fixed s hchu (fun c _ hp => by simpa [isUnd] using hp) false
      (fun hcontra => absurd hcontra Bool.false_ne_true)
  have hse : stripEnds s = s := by
    rw [stripEnds, dropWhile_eq_self_of_headOk hhd, dropTrailing_eq_self_of_lastOk hlt]
  have hemp : s.isEmpty = false := by
    cases s with
    | nil => exact absurd rfl hne
    | cons c t => rfl
  simp only [sanitize_name, hstrip, hemp, Bool.false_eq_true, if_false, hmap,
    hcw, hcu, hse]
  exact List.take_of_length_le hlen

theorem sanitize_shape (x : PyStr) (hemp : (pyStrip x).isEmpty = false) :
    noInvalid (sanitize_name x) ∧ wsIsSpace (sanitize_name x) ∧
    chain2 isWs (sanitize_name x) = true ∧
    chain2 isUnd (sanitize_name x) = true ∧
    headOk (fun c => !isStrip3 c) (sanitize_name x) = true ∧
    (sanitize_name x).length ≤ 80 := by
  · have heq : sanitize_name x =
        (stripEnds (collapseUnd (collapseWs
          ((pyStrip x).map (fun c => if isInvalid c then '_' else c))))).take 80 := by
      simp only [sanitize_name, hemp, if_false, Bool.false_eq_true]
    set s1 := (pyStrip x).map (fun c => if isInvalid c then '_' else c) with hs1
    have hinv1 : noInvalid s1 := by
      intro c hc
      rcases List.mem_map.mp hc with ⟨d, _, rfl⟩
      by_cases hd : isInvalid d
      · rw [if_pos hd]; decide
      · rw [if_neg hd]; exact Bool.of_not_eq_true hd
    have hinv2 : noInvalid (collapseWs s1) := by
      intro c hc
      rcases collapse_mem hc with h1 | ⟨h2, _⟩
      · subst h1; decide
      · exact hinv1 c h2
    have hws2 : wsIsSpace (collapseWs s1) := by
      intro c hc hw
      rcases collapse_mem hc with h1 | ⟨_, h3⟩
      · exact h1
      · rw [hw] at h3; exact absurd h3 (by simp)
    have hch2 : chain2 isWs (collapseWs s1) = true := collapse_chain2 s1 false
    have hinv3 : noInvalid (collapseUnd (collapseWs s1)) := by
      intro c hc
      rcases collapse_mem hc with h1 | ⟨h2, _⟩
      · subst h1; decide
      · exact hinv2 c h2
    have hws3 : wsIsSpace (collapseUnd (collapseWs s1)) := by
      intro c hc hw
      rcases collapse_mem hc with h1 | ⟨h2, _⟩
      · subst h1; exact absurd hw (by decide)
      · exact hws2 c h2 hw
    have hch3 : chain2 isWs (collapseUnd (collapseWs s1)) = true :=
      collapse_chain2_preserve (by decide) (collapseWs s1) false hch2
    have hchu3 : chain2 isUnd (collapseUnd (collapseWs s1)) = true :=
      collapse_chain2 (collapseWs s1) false
    rw [heq]
    refine ⟨?_, ?_, ?_, ?_, ?_, ?_⟩
    · exact fun c hc => hinv3 c (mem_stripEnds (List.take_subset _ _ hc))
    · exact fun c hc hw => hws3 c (mem_stripEnds (List.take_subset _ _ hc)) hw
    · exact chain2_take (chain2_stripEnds hch3) 80
    · exact chain2_take (chain2_stripEnds hchu3) 80
    · exact headOk_take (headOk_stripEnds _) 80
    · exact List.length_take_le 80 _

theorem moveLoop_src_map :
    ∀ (srcs : List PyStr) (repOk : PyStr → PyStr → Bool) (dest : PyStr)
      (m : Nat) (files : List PyStr),
      (moveLoop repOk dest m files srcs).trace.map (fun a => a.src) = srcs := by
  intro srcs
  induction srcs with
  | nil => intros; rfl
  | cons s rest ih =>
    intro repOk dest m files
    simp only [moveLoop]
    split <;> split <;> simp [ih]

theorem moveLoop_moved :
    ∀ (srcs : List PyStr) (repOk : PyStr → PyStr → Bool) (dest : PyStr)
      (m : Nat) (files : List PyStr),
      (moveLoop repOk dest m files srcs).moved =
        m + (moveLoop repOk dest m files srcs).trace.countP (fun a => a.ok) := by
  intro srcs
  induction srcs with
  | nil => intros; simp [moveLoop]
  | cons s rest ih =>
    intro repOk dest m files
    simp only [moveLoop]
    split <;> split <;> simp [ih, List.countP_cons] <;> omega

theorem moveLoop_collision :
    ∀ (srcs : List PyStr) (repOk : PyStr → PyStr → Bool) (dest : PyStr)
      (m : Nat) (files : List PyStr),
      ∀ a ∈ (moveLoop repOk dest m files srcs).trace, a.existed = true →
        a.dst = joinPath dest ((splitext (basename a.src)).1 ++
          '_' :: natToChars a.movedBefore ++ (splitext (basename a.src)).2) := by
  intro srcs
  induction srcs with
  | nil => intro repOk dest m files a ha; simp [moveLoop] at ha
  | cons s rest ih =>
    intro repOk dest m files a ha hex
    simp only [moveLoop] at ha
    by_cases hc : files.contains (joinPath dest (basename s)) = true
    · rw [if_pos hc] at ha
      rcases hsplit : (repOk s (joinPath dest ((splitext (basename s)).1 ++
          '_' :: natToChars m ++ (splitext (basename s)).2))) with _ | _
      · rw [if_neg (by rw [hsplit]; exact Bool.false_ne_true)] at ha
        rcases List.mem_cons.mp ha with h1 | h1
        · subst h1; rfl
        · exact ih repOk dest m files a h1 hex
      · rw [if_pos (by rw [hsplit])] at ha
        rcases List.mem_cons.mp ha with h1 | h1
        · subst h1; rfl
        · exact ih repOk dest (m + 1) _ a h1 hex
    · rw [if_neg hc] at ha
      rcases hsplit : (repOk s (joinPath dest (basename s))) with _ | _
      · rw [if_neg (by rw [hsplit]; exact Bool.false_ne_true)] at ha
        rcases List.mem_cons.mp ha with h1 | h1
        · subst h1
          exact absurd hex (by simpa using hc)
        · exact ih repOk dest m files a h1 hex
      · rw [if_pos (by rw [hsplit])] at ha
        rcases List.mem_cons.mp ha with h1 | h1
        · subst h1
          exact absurd hex (by simpa using hc)
        · exact ih repOk dest (m + 1) _ a h1 hex

theorem moveLoop_ordinal :
    ∀ (srcs : List PyStr) (repOk : PyStr → PyStr → Bool) (dest : PyStr)
      (m : Nat) (files : List PyStr) (i : Nat) (a : MoveAttempt),
      (((moveLoop repOk dest m files srcs).trace.drop i).head? = some a) →
      a.movedBefore =
        m + ((moveLoop repOk dest m files srcs).trace.take i).countP
          (fun x => x.ok) := by
  intro srcs
  induction srcs with
  | nil => intro repOk dest m files i a hhd; simp [moveLoop] at hhd
  | cons s rest ih =>
    intro repOk dest m files i a
    simp only [moveLoop]
    split <;> split <;> dsimp only <;> intro hhd <;>
      rcases i with _ | j <;>
      first
      | (rw [List.drop_zero, List.head?_cons, Option.some_inj] at hhd
         subst hhd
         simp)
      | (rw [List.drop_succ_cons] at hhd
         rw [List.take_succ_cons, List.countP_cons]
         have hih := ih _ _ _ _ j a hhd
         simp at hih ⊢
         omega)

theorem isEmpty_false_of_trigger {t : PyStr} (h : is_trigger t = true) :
    t.isEmpty = false := by
  cases t with
  | nil => exact absurd h (by decide)
  | cons c r => rfl

theorem handler_trigger (env : Env) (st : BatchState) (fs : FS) (ev : Event)
    (h : is_trigger (pyStrip ev.rawText) = true) :
    handler env st fs ev =
      .ok ⟨true, some env.now, []⟩ (ensureDirs fs) none := by
  have hne := isEmpty_false_of_trigger h
  simp only [handler, hne, h, Bool.not_false, Bool.and_self, if_true]

theorem handler_finalize (env : Env) (st : BatchState) (fs0 : FS) (ev : Event)
    (hc : st.collecting = true)
    (htr : is_trigger (pyStrip ev.rawText) = false)
    (hph : is_photo_message ev.msg = false)
    (hne : (pyStrip ev.rawText).isEmpty = false)
    (hmk : env.mkdirOk = true) :
    handler env st fs0 ev =
      .ok ⟨false, none, []⟩
        ⟨(moveLoop env.replaceOk
            (batch_folder (parse_city_site (pyStrip ev.rawText)).1
              (parse_city_site (pyStrip ev.rawText)).2
              (st.batch_started_at.getD env.now)) 0 (ensureDirs fs0).files
            st.downloaded_files).files,
          addDir (batch_folder (parse_city_site (pyStrip ev.rawText)).1
              (parse_city_site (pyStrip ev.rawText)).2
              (st.batch_started_at.getD env.now)) (ensureDirs fs0).dirs⟩
        (some ⟨(parse_city_site (pyStrip ev.rawText)).1,
          (parse_city_site (pyStrip ev.rawText)).2,
          (moveLoop env.replaceOk
            (batch_folder (parse_city_site (pyStrip ev.rawText)).1
              (parse_city_site (pyStrip ev.rawText)).2
              (st.batch_started_at.getD env.now)) 0 (ensureDirs fs0).files
            st.downloaded_files).moved,
          batch_folder (parse_city_site (pyStrip ev.rawText)).1
            (parse_city_site (pyStrip ev.rawText)).2
            (st.batch_started_at.getD env.now),
          (moveLoop env.replaceOk
            (batch_folder (parse_city_site (pyStrip ev.rawText)).1
              (parse_city_site (pyStrip ev.rawText)).2
              (st.batch_started_at.getD env.now)) 0 (ensureDirs fs0).files
            st.downloaded_files).trace⟩) := by
  simp only [handler, hc, htr, hph, hne, hmk, Bool.not_false, Bool.and_false,
    Bool.false_and, Bool.and_true, Bool.true_and, Bool.and_self, if_true,
    Bool.false_eq_true, if_false]

theorem handler_raised (env : Env) (st : BatchState) (fs0 : FS) (ev : Event)
    (hc : st.collecting = true)
    (htr : is_trigger (pyStrip ev.rawText) = false)
    (hph : is_photo_message ev.msg = false)
    (hne : (pyStrip ev.rawText).isEmpty = false)
    (hmk : env.mkdirOk = false) :
    handler env st fs0 ev = .raised st (ensureDirs fs0) := by
  simp only [handler, hc, htr, hph, hne, hmk, Bool.not_false, Bool.and_false,
    Bool.false_and, Bool.and_true, Bool.true_and, Bool.and_self, if_true,
    Bool.false_eq_true, if_false]

theorem mem_addDir_self (d : PyStr) (ds : List PyStr) : d ∈ addDir d ds := by
  rw [addDir]
  by_cases h : ds.contains d
  · rw [if_pos h]
    exact List.mem_of_elem_eq_true h
  · rw [if_neg h]
    exact List.mem_cons_self d ds

theorem stepState_download_files (s : Step) (st : BatchState) (fs : FS) :
    (∀ f ∈ (stepState st fs s).1.downloaded_files,
      f ∈ st.downloaded_files ∨ s.env.download = DownloadOutcome.ok f) ∧
    (∀ rep, (stepState st fs s).2.2 = some rep →
      ∀ a ∈ rep.attempts, a.src ∈ st.downloaded_files) := by
  obtain ⟨ev, env⟩ := s
  by_cases h1 : (!(pyStrip ev.rawText).isEmpty &&
      is_trigger (pyStrip ev.rawText)) = true
  · refine ⟨fun f hf => ?_, fun rep hrep => ?_⟩
    · simp [stepState, handler, h1] at hf
    · simp [stepState, handler, h1] at hrep
  · by_cases h2 : (st.collecting && is_photo_message ev.msg) = true
    · rcases hdl : env.download with p | _ | _
      · refine ⟨fun f hf => ?_, fun rep hrep => ?_⟩
        · simp [stepState, handler, h1, h2, hdl] at hf
          rcases hf with hf | hf
          · exact Or.inl hf
          · subst hf; exact Or.inr rfl
        · simp [stepState, handler, h1, h2, hdl] at hrep
      · refine ⟨fun f hf => ?_, fun rep hrep => ?_⟩
        · simp [stepState, handler, h1, h2, hdl] at hf
          exact Or.inl hf
        · simp [stepState, handler, h1, h2, hdl] at hrep
      · refine ⟨fun f hf => ?_, fun rep hrep => ?_⟩
        · simp [stepState, handler, h1, h2, hdl] at hf
          exact Or.inl hf
        · simp [stepState, handler, h1, h2, hdl] at hrep
    · by_cases h3 : (st.collecting && !(pyStrip ev.rawText).isEmpty) = true
      · by_cases h4 : env.mkdirOk = true
        · refine ⟨fun f hf => ?_, fun rep hrep => ?_⟩
          · simp [stepState, handler, h1, h2, h3, h4] at hf
          · simp only [stepState, handler, h1, h2, h3, h4, Bool.false_eq_true,
              if_false, if_true] at hrep
            rw [Option.some_inj] at hrep
            subst hrep
            intro a ha
            have hmem : a.src ∈ (moveLoop env.replaceOk _ 0
                (ensureDirs fs).files st.downloaded_files).trace.map
                (fun x => x.src) := List.mem_map_of_mem _ ha
            rw [moveLoop_src_map] at hmem
            exact hmem
        · refine ⟨fun f hf => ?_, fun rep hrep => ?_⟩
          · have h4f : env.mkdirOk = false := by
              cases hmm : env.mkdirOk
              · rfl
              · exact absurd hmm h4
            simp [stepState, handler, h1, h2, h3, h4f] at hf
            exact Or.inl hf
          · have h4f : env.mkdirOk = false := by
              cases hmm : env.mkdirOk
              · rfl
              · exact absurd hmm h4
            simp [stepState, handler, h1, h2, h3, h4f] at hrep
      · refine ⟨fun f hf => ?_, fun rep hrep => ?_⟩
        · simp [stepState, handler, h1, h2, h3] at hf
          exact Or.inl hf
        · simp [stepState, handler, h1, h2, h3] at hrep

theorem mem_downloadOks_cons {s : Step} {steps : List Step} {f : PyStr} :
    (s.env.download = DownloadOutcome.ok f ∨ f ∈ downloadOks steps) →
    f ∈ downloadOks (s :: steps) := by
  intro h
  rw [downloadOks, List.filterMap_cons]
  rcases h with h | h
  · rw [h]
    exact List.mem_cons_self f _
  · rcases s.env.download with p | _ | _
    · exact List.mem_cons_of_mem p h
    · exact h
    · exact h

theorem runEvents_sources :
    ∀ (steps : List Step) (st : BatchState) (fs : FS) (D : List PyStr),
      (∀ f ∈ st.downloaded_files, f ∈ D) →
      ∀ rep ∈ (runEvents st fs steps).2.2, ∀ a ∈ rep.attempts,
        a.src ∈ D ∨ a.src ∈ downloadOks steps := by
  intro steps
  induction steps with
  | nil =>
    intro st fs D _ rep hrep
    simp [runEvents] at hrep
  | cons s rest ih =>
    intro st fs D hD rep hrep a ha
    rw [runEvents] at hrep
    rcases List.mem_append.mp hrep with h1 | h1
    · rcases hcase : (stepState st fs s).2.2 with _ | r
      · rw [hcase] at h1
        simp [Option.toList] at h1
      · rw [hcase] at h1
        simp only [Option.toList, List.mem_singleton] at h1
        subst h1
        exact Or.inl (hD a.src
          ((stepState_download_files s st fs).2 rep hcase a ha))
    · have hD2 : ∀ f ∈ (stepState st fs s).1.downloaded_files,
          f ∈ D ++ downloadOks [s] := by
        intro f hf
        rcases (stepState_download_files s st fs).1 f hf with h | h
        · exact List.mem_append_left _ (hD f h)
        · refine List.mem_append_right _ ?_
          exact mem_downloadOks_cons (Or.inl h)
      have := ih (stepState st fs s).1 (stepState st fs s).2.1
        (D ++ downloadOks [s]) hD2 rep h1 a ha
      rcases this with h | h
      · rcases List.mem_append.mp h with h2 | h2
        · exact Or.inl h2
        · refine Or.inr (mem_downloadOks_cons (Or.inl ?_))
          rw [downloadOks, List.filterMap_cons] at h2
          rcases hdl : s.env.download with p | _ | _ <;> rw [hdl] at h2
          · simp only [List.filterMap_nil] at h2
            rcases List.mem_singleton.mp h2 with rfl
            exact rfl
          · simp [List.filterMap_nil] at h2
          · simp [List.filterMap_nil] at h2
      · exact Or.inr (mem_downloadOks_cons (Or.inr h))

theorem mem_of_drop_head {α : Type} {l : List α} {i : Nat} {a : α}
    (h : (l.drop i).head? = some a) : a ∈ l := by
  rcases hx : l.drop i with _ | ⟨b, r⟩
  · rw [hx] at h; exact absurd h (by simp)
  · rw [hx, List.head?_cons, Option.some_inj] at h
    rw [← h]
    exact List.drop_subset i l (by rw [hx]; exact List.mem_cons_self b r)

theorem sanitize_len (x : PyStr) : (sanitize_name x).length ≤ 80 := by
  by_cases h : (pyStrip x).isEmpty
  · simp only [sanitize_name, h, if_true]
    decide
  · simp only [sanitize_name, h, Bool.false_eq_true, if_false]
    exact List.length_take_le 80 _

/-- C1: the claim says a destination-folder creation failure during finalize
is surfaced AND the state machine still returns to IDLE. The code surfaces
the failure (the `os.makedirs` exception escapes the handler), but the reset
lines never run: at this failing input the state keeps `collecting = true`
with the staged file retained, so the machine stays in COLLECTING. -/
theorem mkdir_failure_keeps_collecting :
    handler ⟨str "2024-01-01_00-00-00", DownloadOutcome.err, false,
        fun _ _ => true⟩
      ⟨true, some (str "S"), [str "output/_inbox/a.jpg"]⟩ ⟨[], []⟩
      ⟨str "Delhi | Red Fort", ⟨false, none⟩⟩ =
    HResult.raised ⟨true, some (str "S"), [str "output/_inbox/a.jpg"]⟩
      ⟨[], [DOWNLOAD_TEMP, OUTPUT_ROOT]⟩ := by decide

/-- C2 counterexample: sanitize is not idempotent at the input ".": its
sanitized form is the empty string, and sanitizing again gives "Unknown". -/
theorem sanitize_not_idempotent_dot :
    sanitize_name (sanitize_name (str ".")) ≠ sanitize_name (str ".") := by
  decide

/-- C2 (amended): sanitize is idempotent on every input whose trimmed form
is non-empty (so the literal "Unknown" fallback, which itself contains
letters the replacement class rewrites, is not taken), whose sanitized form
is non-empty, and whose sanitized form does not end in a space, dot or
underscore; the excluded cases are exactly where idempotence fails (the
empty strip gives "Unknown" which re-sanitizes to "U_k_ow", an empty result
re-sanitizes to "Unknown", and a trailing strippable character, possible
only through truncation at maxLen, is stripped by the second pass). -/
theorem sanitize_idempotent_of_goodTail (x : PyStr)
    (h0 : (pyStrip x).isEmpty = false)
    (h1 : sanitize_name x ≠ [])
    (h2 : lastOk (fun c => !isStrip3 c) (sanitize_name x) = true) :
    sanitize_name (sanitize_name x) = sanitize_name x := by
  obtain ⟨ha, hb, hc, hd, he, hf⟩ := sanitize_shape x h0
  exact sanitize_fixed ⟨h1, ha, hb, hc, hd, he, h2, hf⟩

/-- Witness for the amended C2 theorem at the concrete input "Hello World". -/
theorem sanitize_idempotent_of_goodTail_witness :
    ((pyStrip (str "Hello World")).isEmpty = false ∧
      sanitize_name (str "Hello World") ≠ [] ∧
      lastOk (fun c => !isStrip3 c) (sanitize_name (str "Hello World")) = true) ∧
    sanitize_name (sanitize_name (str "Hello World")) =
      sanitize_name (str "Hello World") :=
  ⟨⟨by decide, by decide, by decide⟩,
    sanitize_idempotent_of_goodTail (str "Hello World") (by decide) (by decide)
      (by decide)⟩

/-- C3 counterexample: at the input "." the parser produces an empty
subcategory, refuting the claim that both label components are always
non-empty (the category is the UnknownCity fallback as the program actually
sanitizes it, with its letters n and t replaced by underscores). -/
theorem parse_subcategory_empty_dot :
    parse_city_site (str ".") = (str "U_k_ow_Ci_y", ([] : PyStr)) := by decide

/-- C3 (amended): for every input text the parser is total and both label
components are bounded by the sanitizer limit of 80 characters; they are
however not always non-empty (see the counterexample). -/
theorem parse_label_bounded (text : PyStr) :
    (parse_city_site text).1.length ≤ 80 ∧
    (parse_city_site text).2.length ≤ 80 :=
  ⟨sanitize_len _, sanitize_len _⟩

/-- C4 counterexample: "sending  photos" (two internal spaces) case-folds
and whitespace-normalizes exactly to the trigger phrase, yet the trigger
check rejects it: matching is not whitespace-normalized equality. -/
theorem trigger_not_ws_normalized :
    caseWsNormalized (str "sending  photos") = TRIGGER_TEXT ∧
    is_trigger (str "sending  photos") = false := by decide

/-- C4 (amended): trigger matching is exact equality of the trimmed,
lowercased text with the trigger phrase: leading and trailing whitespace and
letter case are ignored ("  Sending Photos  " matches), while any other
difference, internal whitespace included, makes it fail ("sending photosx"
does not match). -/
theorem trigger_trim_lower_exact :
    (∀ t : PyStr, is_trigger t = true ↔
      (pyStrip t).map Char.toLower = TRIGGER_TEXT) ∧
    is_trigger (str "  Sending Photos  ") = true ∧
    is_trigger (str "sending photosx") = false := by
  refine ⟨fun t => ?_, by decide, by decide⟩
  rw [is_trigger]
  exact beq_iff_eq

/-- C5: at the claim's own example inputs the program does not produce the
claimed values. Because `INVALID_FS_CHARS` is a raw string, the replacement
class matches the literal letters n, r and t, so the sanitizer mangles the
label parts and even the UnknownCity/UnknownSite fallbacks, instead of the
claimed ("Mumbai", "Gateway of India") and ("UnknownCity", "UnknownSite"). -/
theorem parse_label_mangled :
    parse_city_site (str "Mumbai | Gateway of India") =
      (str "Mumbai", str "Ga_eway of I_dia") ∧
    parse_city_site (str "") = (str "U_k_ow_Ci_y", str "U_k_ow_Si_e") := by
  decide

/-- C6: whenever the finalize branch runs (collecting, non-trigger,
non-photo event with non-empty text) and the destination folder creation
succeeds, so that all relocation attempts complete, the handler transitions
to IDLE with stagedFiles and startedAt cleared, the reported moved count
equals the number of successful moves, and every staged file got exactly one
attempt in order. -/
theorem finalize_resets_and_counts (env : Env) (st : BatchState) (fs0 : FS)
    (ev : Event) (hc : st.collecting = true)
    (htr : is_trigger (pyStrip ev.rawText) = false)
    (hph : is_photo_message ev.msg = false)
    (hne : (pyStrip ev.rawText).isEmpty = false)
    (hmk : env.mkdirOk = true) :
    ∃ fs1 rep, handler env st fs0 ev =
        HResult.ok ⟨false, none, []⟩ fs1 (some rep) ∧
      rep.moved = rep.attempts.countP (fun a => a.ok) ∧
      rep.attempts.map (fun a => a.src) = st.downloaded_files := by
  refine ⟨_, _, handler_finalize env st fs0 ev hc htr hph hne hmk, ?_, ?_⟩
  · simpa using moveLoop_moved st.downloaded_files env.replaceOk _ 0 _
  · exact moveLoop_src_map st.downloaded_files env.replaceOk _ 0 _

/-- Witness for the C6 theorem: a concrete finalize with one staged file. -/
theorem finalize_resets_and_counts_witness :
    ((⟨true, some (str "S"), [str "output/_inbox/a.jpg"]⟩ :
        BatchState).collecting = true ∧
      is_trigger (pyStrip (str "Delhi | Red Fort")) = false ∧
      is_photo_message ⟨false, none⟩ = false ∧
      (pyStrip (str "Delhi | Red Fort")).isEmpty = false ∧
      (⟨str "T", DownloadOutcome.err, true, fun _ _ => true⟩ : Env).mkdirOk
        = true) ∧
    (∃ fs1 rep,
      handler ⟨str "T", DownloadOutcome.err, true, fun _ _ => true⟩
          ⟨true, some (str "S"), [str "output/_inbox/a.jpg"]⟩ ⟨[], []⟩
          ⟨str "Delhi | Red Fort", ⟨false, none⟩⟩ =
        HResult.ok ⟨false, none, []⟩ fs1 (some rep) ∧
      rep.moved = rep.attempts.countP (fun a => a.ok) ∧
      rep.attempts.map (fun a => a.src) =
        (⟨true, some (str "S"), [str "output/_inbox/a.jpg"]⟩ :
          BatchState).downloaded_files) :=
  ⟨⟨rfl, by decide, rfl, by decide, rfl⟩,
    finalize_resets_and_counts _ _ _ _ rfl (by decide) rfl (by decide) rfl⟩

/-- C7: a trigger event received in any state, in particular while already
COLLECTING, restarts the batch without finalizing: the state becomes
collecting with the fresh timestamp and empty stagedFiles, no report is
produced, and every file moved by any later finalize of the run comes from a
download performed by a step after the trigger, so the files staged before
the trigger are never in a later finalize move list. -/
theorem trigger_restart_excludes_old_files (st : BatchState) (fs : FS)
    (s : Step) (steps : List Step)
    (h : is_trigger (pyStrip s.ev.rawText) = true) :
    (stepState st fs s).1 = ⟨true, some s.env.now, []⟩ ∧
    (stepState st fs s).2.2 = none ∧
    ∀ rep ∈ (runEvents st fs (s :: steps)).2.2, ∀ a ∈ rep.attempts,
      a.src ∈ downloadOks steps := by
  have hstep : stepState st fs s =
      (⟨true, some s.env.now, []⟩, ensureDirs fs, none) := by
    unfold stepState
    rw [handler_trigger s.env st fs s.ev h]
  refine ⟨by rw [hstep], by rw [hstep], ?_⟩
  intro rep hrep a ha
  rw [runEvents] at hrep
  rw [hstep] at hrep
  simp only [Option.toList, List.nil_append] at hrep
  have hsrc := runEvents_sources steps ⟨true, some s.env.now, []⟩
    (ensureDirs fs) [] (by intro f hf; exact absurd hf (by simp)) rep hrep a ha
  rcases hsrc with hcontra | hok
  · exact absurd hcontra (by simp)
  · exact hok

/-- Witness for the C7 theorem: a trigger while collecting with one staged
file, followed by no further events. -/
theorem trigger_restart_excludes_old_files_witness :
    is_trigger (pyStrip (Step.mk ⟨str "  Sending Photos  ", ⟨true, none⟩⟩
      ⟨str "T2", DownloadOutcome.err, true, fun _ _ => true⟩).ev.rawText)
      = true ∧
    ((stepState ⟨true, some (str "T1"), [str "output/_inbox/old.jpg"]⟩
        ⟨[], []⟩ (Step.mk ⟨str "  Sending Photos  ", ⟨true, none⟩⟩
          ⟨str "T2", DownloadOutcome.err, true, fun _ _ => true⟩)).1 =
      ⟨true, some (str "T2"), []⟩ ∧
    (stepState ⟨true, some (str "T1"), [str "output/_inbox/old.jpg"]⟩
        ⟨[], []⟩ (Step.mk ⟨str "  Sending Photos  ", ⟨true, none⟩⟩
          ⟨str "T2", DownloadOutcome.err, true, fun _ _ => true⟩)).2.2 =
      none ∧
    ∀ rep ∈ (runEvents ⟨true, some (str "T1"), [str "output/_inbox/old.jpg"]⟩
        ⟨[], []⟩ [Step.mk ⟨str "  Sending Photos  ", ⟨true, none⟩⟩
          ⟨str "T2", DownloadOutcome.err, true, fun _ _ => true⟩]).2.2,
      ∀ a ∈ rep.attempts, a.src ∈ downloadOks []) :=
  ⟨by decide,
    trigger_restart_excludes_old_files
      ⟨true, some (str "T1"), [str "output/_inbox/old.jpg"]⟩ ⟨[], []⟩
      (Step.mk ⟨str "  Sending Photos  ", ⟨true, none⟩⟩
        ⟨str "T2", DownloadOutcome.err, true, fun _ _ => true⟩) [] (by decide)⟩

/-- C8: during finalize, the attempt at position i of the move trace carries
the ordinal `movedBefore` equal to the count of successful moves among the
earlier attempts of this pass (0-based, incremented per successful move, not
per attempt), and whenever the direct destination of that attempt already
existed, the file is instead moved to {name}_{ordinal}{ext} built from that
ordinal. -/
theorem finalize_collision_ordinal (env : Env) (st : BatchState) (fs0 : FS)
    (ev : Event) (hc : st.collecting = true)
    (htr : is_trigger (pyStrip ev.rawText) = false)
    (hph : is_photo_message ev.msg = false)
    (hne : (pyStrip ev.rawText).isEmpty = false)
    (hmk : env.mkdirOk = true) :
    ∃ fs1 rep, handler env st fs0 ev =
        HResult.ok ⟨false, none, []⟩ fs1 (some rep) ∧
      ∀ i a, ((rep.attempts.drop i).head? = some a) →
        a.movedBefore = (rep.attempts.take i).countP (fun x => x.ok) ∧
        (a.existed = true → a.dst = joinPath rep.dest
          ((splitext (basename a.src)).1 ++ '_' :: natToChars a.movedBefore ++
            (splitext (basename a.src)).2)) := by
  refine ⟨_, _, handler_finalize env st fs0 ev hc htr hph hne hmk, ?_⟩
  intro i a hhd
  refine ⟨?_, ?_⟩
  · simpa using moveLoop_ordinal st.downloaded_files env.replaceOk _ 0 _ i a hhd
  · intro hex
    exact moveLoop_collision st.downloaded_files env.replaceOk _ 0 _ a
      (mem_of_drop_head hhd) hex

/-- Witness for the C8 theorem: two staged files with the same basename; the
second attempt collides and is renamed with ordinal 1. -/
theorem finalize_collision_ordinal_witness :
    ((⟨true, some (str "S"),
        [str "output/_inbox/a.jpg", str "output/_inbox/b/a.jpg"]⟩ :
        BatchState).collecting = true ∧
      is_trigger (pyStrip (str "Delhi | Red Fort")) = false ∧
      is_photo_message ⟨false, none⟩ = false ∧
      (pyStrip (str "Delhi | Red Fort")).isEmpty = false ∧
      (⟨str "T", DownloadOutcome.err, true, fun _ _ => true⟩ : Env).mkdirOk
        = true) ∧
    (∃ fs1 rep,
      handler ⟨str "T", DownloadOutcome.err, true, fun _ _ => true⟩
          ⟨true, some (str "S"),
            [str "output/_inbox/a.jpg", str "output/_inbox/b/a.jpg"]⟩
          ⟨[], []⟩ ⟨str "Delhi | Red Fort", ⟨false, none⟩⟩ =
        HResult.ok ⟨false, none, []⟩ fs1 (some rep) ∧
      ∀ i a, ((rep.attempts.drop i).head? = some a) →
        a.movedBefore = (rep.attempts.take i).countP (fun x => x.ok) ∧
        (a.existed = true → a.dst = joinPath rep.dest
          ((splitext (basename a.src)).1 ++ '_' :: natToChars a.movedBefore ++
            (splitext (basename a.src)).2))) :=
  ⟨⟨rfl, by decide, rfl, by decide, rfl⟩,
    finalize_collision_ordinal _ _ _ _ rfl (by decide) rfl (by decide) rfl⟩

/-- C9: an event whose text matches the trigger is handled only by the
trigger transition even when it also carries qualifying media: the handler
returns right after entering COLLECTING, so nothing is downloaded (the
result does not depend on the download oracle), nothing is appended to
stagedFiles, and the files on disk are unchanged. -/
theorem trigger_event_with_media_skips_media (env : Env) (st : BatchState)
    (fs : FS) (ev : Event)
    (h : is_trigger (pyStrip ev.rawText) = true)
    (_hm : is_photo_message ev.msg = true) :
    handler env st fs ev =
      HResult.ok ⟨true, some env.now, []⟩ (ensureDirs fs) none ∧
    (ensureDirs fs).files = fs.files :=
  ⟨handler_trigger env st fs ev h, rfl⟩

/-- Witness for the C9 theorem: a trigger message carrying a native photo
whose download oracle would even succeed; the result ignores it. -/
theorem trigger_event_with_media_skips_media_witness :
    (is_trigger (pyStrip (str "  Sending Photos  ")) = true ∧
      is_photo_message ⟨true, none⟩ = true) ∧
    (handler ⟨str "T", DownloadOutcome.ok (str "output/_inbox/x.jpg"), true,
          fun _ _ => true⟩
        ⟨true, some (str "S"), []⟩ ⟨[], []⟩
        ⟨str "  Sending Photos  ", ⟨true, none⟩⟩ =
      HResult.ok ⟨true, some (str "T"), []⟩
        (ensureDirs ⟨[], []⟩) none ∧
    (ensureDirs (⟨[], []⟩ : FS)).files = (⟨[], []⟩ : FS).files) :=
  ⟨⟨by decide, rfl⟩,
    trigger_event_with_media_skips_media _ _ _ _ (by decide) rfl⟩

/-- C10: finalizing a batch with zero staged files (as after a trigger
immediately followed by a non-trigger text message) still creates the
destination folder, reports a moved count of zero, and returns the machine
to IDLE with the files on disk untouched. -/
theorem finalize_zero_staged (env : Env) (st : BatchState) (fs0 : FS)
    (ev : Event) (hc : st.collecting = true)
    (hz : st.downloaded_files = [])
    (htr : is_trigger (pyStrip ev.rawText) = false)
    (hph : is_photo_message ev.msg = false)
    (hne : (pyStrip ev.rawText).isEmpty = false)
    (hmk : env.mkdirOk = true) :
    ∃ fs1 rep, handler env st fs0 ev =
        HResult.ok ⟨false, none, []⟩ fs1 (some rep) ∧
      rep.moved = 0 ∧ rep.dest ∈ fs1.dirs ∧
      fs1.files = (ensureDirs fs0).files := by
  refine ⟨_, _, handler_finalize env st fs0 ev hc htr hph hne hmk, ?_, ?_, ?_⟩
  · rw [hz]; rfl
  · exact mem_addDir_self _ _
  · rw [hz]; rfl


/-- Witness for the C10 theorem: finalize straight after a trigger. -/
theorem finalize_zero_staged_witness :
    ((⟨true, some (str "S"), []⟩ : BatchState).collecting = true ∧
      (⟨true, some (str "S"), []⟩ : BatchState).downloaded_files = [] ∧
      is_trigger (pyStrip (str "Delhi | Red Fort")) = false ∧
      is_photo_message ⟨false, none⟩ = false ∧
      (pyStrip (str "Delhi | Red Fort")).isEmpty = false ∧
      (⟨str "T", DownloadOutcome.err, true, fun _ _ => true⟩ : Env).mkdirOk
        = true) ∧
    (∃ fs1 rep,
      handler ⟨str "T", DownloadOutcome.err, true, fun _ _ => true⟩
          ⟨true, some (str "S"), []⟩ ⟨[], []⟩
          ⟨str "Delhi | Red Fort", ⟨false, none⟩⟩ =
        HResult.ok ⟨false, none, []⟩ fs1 (some rep) ∧
      rep.moved = 0 ∧ rep.dest ∈ fs1.dirs ∧
      fs1.files = (ensureDirs ⟨[], []⟩).files) :=
  ⟨⟨rfl, rfl, by decide, rfl, by decide, rfl⟩,
    finalize_zero_staged _ _ _ _ rfl rfl (by decide) rfl (by decide) rfl⟩
